import Mathlib

/-!
Shallow embedding of the anvil-region storage engine (src/lib.rs).

The backing file is modelled as a byte store (`FileM`): a length plus a
byte-valued function; writing past the end extends the file, exactly as
seek-and-write does on a real file.  The `bitvec` sector bitmap is modelled
by `BitV` (a length plus a bit-valued function; the model takes
`capacity = len`).  Machine integers are `Nat` with explicit `% 2 ^ w`
truncation at every point where the Rust source casts or can wrap
(release-mode wrapping semantics).  The external NBT codec and the
gzip/zlib compressors are out of scope per the specification and are
passed in as an abstract `NbtCodec`; the engine hands it the payload byte
count and a byte-reading function.  Time (`SystemTime::now`) is passed in
as an explicit `now` argument to `write_chunk`.
-/

/-- A byte-addressed backing file: current length and contents.  Bytes never
written are 0 (files are created empty and only extended with zeros). -/
structure FileM where
  len : Nat
  data : Nat → Nat

/-- Seek to `off` and write `n` bytes taken from `g` (byte `off + i` becomes
`g i`); writing past the end of the file extends it. -/
def writeBytesF (f : FileM) (off n : Nat) (g : Nat → Nat) : FileM :=
  { len := max f.len (off + n)
    data := fun i => if off ≤ i ∧ i < off + n then g (i - off) else f.data i }

/-- `File::set_len`: the new tail (only growth happens at the call sites) is
zero-filled. -/
def setLenF (f : FileM) (n : Nat) : FileM :=
  { len := n, data := fun i => if i < f.len ∧ i < n then f.data i else 0 }

/-- Byte `i` (0 = most significant) of the 4-byte big-endian encoding of `v`. -/
def u32beByte (v i : Nat) : Nat := v / 2 ^ (8 * (3 - i)) % 256

/-- `WriteBytesExt::write_u32::<BigEndian>` at offset `off`. -/
def writeU32BE (f : FileM) (off v : Nat) : FileM :=
  writeBytesF f off 4 (u32beByte (v % 2 ^ 32))

/-- `ReadBytesExt::read_u32::<BigEndian>` at offset `off`; `none` models the
I/O error of reading past the end of the file. -/
def readU32BE (f : FileM) (off : Nat) : Option Nat :=
  if off + 4 ≤ f.len then
    some (f.data off * 2 ^ 24 + f.data (off + 1) * 2 ^ 16 +
      f.data (off + 2) * 2 ^ 8 + f.data (off + 3))
  else none

/-- `read_u8` at offset `off`; `none` models reading past the end. -/
def readByteF (f : FileM) (off : Nat) : Option Nat :=
  if off + 1 ≤ f.len then some (f.data off) else none

/-- The `bitvec` of used sectors: a length plus the bit contents.  The model
identifies `capacity()` with `len()` (capacity is an allocation detail). -/
structure BitV where
  len : Nat
  bits : Nat → Bool

/-- `BitVec::set` (call sites guard the index themselves, mirroring the
source's own guards). -/
def BitV.set (v : BitV) (i : Nat) (b : Bool) : BitV :=
  { v with bits := fun j => if j = i then b else v.bits j }

/-- `BitVec::push`. -/
def BitV.push (v : BitV) (b : Bool) : BitV :=
  { len := v.len + 1, bits := fun j => if j = v.len then b else v.bits j }

/-- `n` successive pushes of the same bit (the `for _ in 0..extend_sectors`
loop in `find_place`). -/
def BitV.pushN (v : BitV) : Nat → Bool → BitV
  | 0, _ => v
  | n + 1, b => (v.push b).pushN n b

/-- Sector length in bytes (`REGION_SECTOR_BYTES_LENGTH`). -/
def REGION_SECTOR_BYTES_LENGTH : Nat := 4096

/-- Maximum chunk length in bytes (`CHUNK_MAXIMUM_BYTES_LENGTH = 4096 * 256`). -/
def CHUNK_MAXIMUM_BYTES_LENGTH : Nat := 4096 * 256

/-- Region header length in bytes (`REGION_HEADER_BYTES_LENGTH`). -/
def REGION_HEADER_BYTES_LENGTH : Nat := 8192

/-- One slot of the region header (`AnvilChunkMetadata`). -/
structure AnvilChunkMetadata where
  sector_index : Nat
  sectors : Nat
  last_modified_timestamp : Nat
deriving DecidableEq

/-- `AnvilChunkMetadata::is_empty`. -/
def AnvilChunkMetadata.is_empty (m : AnvilChunkMetadata) : Bool := m.sectors == 0

/-- `ChunkLoadError` (I/O and decode errors carry no data the claims need). -/
inductive ChunkLoadError where
  | regionNotFound (region_x region_z : Int)
  | chunkNotFound (chunk_x chunk_z : Nat)
  | lengthExceedsMaximum (length maximum_length : Nat)
  | unsupportedCompressionScheme (compression_scheme : Nat)
  | readError
  | tagDecodeError
deriving DecidableEq

/-- `ChunkSaveError`. -/
inductive ChunkSaveError where
  | lengthExceedsMaximum (length : Nat)
  | writeError
deriving DecidableEq

/-- The external NBT codec (spec §1 treats it as an out-of-scope
collaborator): given the payload byte count and a byte-reading function it
either decodes a value or fails. -/
structure NbtCodec (α : Type) where
  read_gzip : Nat → (Nat → Nat) → Except Unit α
  read_zlib : Nat → (Nat → Nat) → Except Unit α

/-- In-memory state of `AnvilRegion`: backing file, the 1024 header entries
(as a function from slot index), and the used-sector bitmap. -/
structure AnvilRegion where
  file : FileM
  chunks_metadata : Nat → AnvilChunkMetadata
  used_sectors : BitV

/-- `AnvilRegion::metadata_index` (the source asserts `chunk_x, chunk_z < 32`;
theorems carry that bound as a hypothesis where it matters). -/
def metadata_index (chunk_x chunk_z : Nat) : Nat := chunk_x + chunk_z * 32

/-- `AnvilRegion::get_metadata`. -/
def get_metadata (r : AnvilRegion) (chunk_x chunk_z : Nat) : AnvilChunkMetadata :=
  r.chunks_metadata (metadata_index chunk_x chunk_z)

/-- `AnvilRegion::read_header`, per slot: offset word `i` is the big-endian
u32 at byte `4 * i`, its timestamp the big-endian u32 at byte `4096 + 4 * i`;
`sector_index = word >> 8`, `sectors = word & 0xFF`.  (After the header
extension in `AnvilRegion::new` the file is at least 8192 bytes long, so
these reads cannot fail.) -/
def read_header (f : FileM) (i : Nat) : AnvilChunkMetadata :=
  let offset := f.data (4 * i) * 2 ^ 24 + f.data (4 * i + 1) * 2 ^ 16 +
    f.data (4 * i + 2) * 2 ^ 8 + f.data (4 * i + 3)
  let ts := f.data (4096 + 4 * i) * 2 ^ 24 + f.data (4096 + 4 * i + 1) * 2 ^ 16 +
    f.data (4096 + 4 * i + 2) * 2 ^ 8 + f.data (4096 + 4 * i + 3)
  ⟨offset / 256, offset % 256, ts⟩

/-- Inner loop of `AnvilRegion::used_sectors`: mark `[start, start + cnt)`
used, silently skipping indices out of range (the source's
`if index < used_sectors.len()` guard). -/
def markRange (v : BitV) (start cnt : Nat) : BitV :=
  (List.range cnt).foldl
    (fun v i => if start + i < v.len then v.set (start + i) true else v) v

/-- `AnvilRegion::used_sectors`: sectors 0 and 1 (the header) are marked used,
then every non-empty slot marks its range. -/
def usedSectorsOf (total : Nat) (meta : Nat → AnvilChunkMetadata) : BitV :=
  let v : BitV := ⟨total, fun _ => false⟩
  let v := (v.set 0 true).set 1 true
  (List.range 1024).foldl
    (fun v i =>
      let m := meta i
      if m.is_empty then v else markRange v m.sector_index m.sectors) v

/-- `AnvilRegion::new` on an already-opened file: extend to the 8192-byte
header length if shorter, parse the header, build the bitmap. -/
def AnvilRegion.new (f0 : FileM) : AnvilRegion :=
  let f := if REGION_HEADER_BYTES_LENGTH > f0.len then setLenF f0 REGION_HEADER_BYTES_LENGTH else f0
  let meta := read_header f
  let total := f.len / REGION_SECTOR_BYTES_LENGTH
  ⟨f, meta, usedSectorsOf total meta⟩

/-- The release loop of `find_place`: clear the slot's old range, skipping
out-of-range indices (the source's capacity guard). -/
def releaseSectors (v : BitV) (si cnt : Nat) : BitV :=
  (List.range cnt).foldl
    (fun v i => if si + i < v.len then v.set (si + i) false else v) v

/-- `sectors_required` as computed on line 437:
`(chunk_length / REGION_SECTOR_BYTES_LENGTH as u32) as u8 + 1`.  The quotient
is truncated to `u8` before the increment, and the increment itself wraps in
`u8`, hence the two `% 256`. -/
def sectorsRequired (chunk_length : Nat) : Nat :=
  (chunk_length / REGION_SECTOR_BYTES_LENGTH % 256 + 1) % 256

/-- The gap-scan loop of `find_place` (lines 455-481), fuel = number of
sector indices left to visit (the loop runs `sector_index` from 0 to
`total_sectors`).  An index at or past the bitmap length, or an occupied
bit, resets the free-run counter; a free bit increments it (`sectors_free`
is a `u8`, hence `% 256`); when the counter reaches `sectors_required` the
loop returns `put_sector_index = sector_index - sectors_free` (a `u32`
subtraction, modelled with wrap-around).  Falling off the end returns the
final counter. -/
def scanGo (v : BitV) (required : Nat) : Nat → Nat → Nat → Sum (Nat × Nat) Nat
  | 0, _, free => Sum.inr free
  | fuel + 1, i, free =>
    if v.len ≤ i ∨ v.bits i = true then scanGo v required fuel (i + 1) 0
    else
      let free1 := (free + 1) % 256
      if free1 = required then Sum.inl ((i % 2 ^ 32 + 2 ^ 32 - free1) % 2 ^ 32, free1)
      else scanGo v required fuel (i + 1) free1

/-- The acquire loop of `find_place` (lines 470-477): `k` iterations setting
`put + i` used; the source's (mis-stated) guard compares the loop counter
`i` against the capacity and returns an I/O error when it is out of range.
Returns the (possibly partially) updated bitmap and whether it succeeded. -/
def acquireGo (put : Nat) : Nat → Nat → BitV → BitV × Bool
  | 0, _, v => (v, true)
  | rem + 1, i, v =>
    if v.len ≤ i then (v, false)
    else acquireGo put rem (i + 1) (v.set (put + i) true)

/-- `AnvilRegion::find_place` (lines 431-498).  Returns the updated region
state together with the chosen metadata, or an I/O error (`Except.error`). -/
def find_place (r : AnvilRegion) (chunk_x chunk_z : Nat) (chunk_length : Nat) :
    AnvilRegion × Except Unit AnvilChunkMetadata :=
  let required := sectorsRequired chunk_length
  let metadata := get_metadata r chunk_x chunk_z
  if metadata.sectors = required then (r, Except.ok metadata)
  else
    let v := releaseSectors r.used_sectors metadata.sector_index metadata.sectors
    let file_length := r.file.len
    let total := file_length / REGION_SECTOR_BYTES_LENGTH
    match scanGo v required total 0 0 with
    | Sum.inl (put, k) =>
      match acquireGo put k 0 v with
      | (v1, false) => ({ r with used_sectors := v1 }, Except.error ())
      | (v1, true) => ({ r with used_sectors := v1 }, Except.ok ⟨put, k, 0⟩)
    | Sum.inr free =>
      let extend_sectors := (required + 256 - free % 256) % 256
      let extend_length := REGION_SECTOR_BYTES_LENGTH * extend_sectors % 65536
      let f1 := setLenF r.file (file_length + extend_length)
      let v1 := v.pushN extend_sectors true
      ({ r with file := f1, used_sectors := v1 },
        Except.ok ⟨(total % 2 ^ 32 + 2 ^ 32 - free % 2 ^ 32) % 2 ^ 32, required, 0⟩)

/-- `AnvilRegion::update_metadata` (lines 501-523): store the entry in the
in-memory array, write the offset word `(sector_index << 8) | sectors` (a
`u32`, so the shift wraps) at byte `4 * index`, then the timestamp at byte
`4 * index + 4096`. -/
def update_metadata (r : AnvilRegion) (chunk_x chunk_z : Nat)
    (metadata : AnvilChunkMetadata) : AnvilRegion :=
  let idx := metadata_index chunk_x chunk_z
  let meta1 := fun j => if j = idx then metadata else r.chunks_metadata j
  let offset := metadata.sector_index * 256 % 2 ^ 32 + metadata.sectors % 256
  let f1 := writeU32BE r.file (idx * 4) offset
  let f2 := writeU32BE f1 (idx * 4 + 4096) (metadata.last_modified_timestamp % 2 ^ 32)
  ⟨f2, meta1, r.used_sectors⟩

/-- The `(length - 1) as usize` payload-buffer size computed on line 366:
a `u32` subtraction, which wraps on `length = 0`. -/
def payloadByteLen (length : Nat) : Nat := (length + 2 ^ 32 - 1) % 2 ^ 32

/-- `AnvilRegion::write_chunk` (lines 378-414).  The encoded, compressed
chunk body is passed in as `payload_len` bytes read off `payload` (the
external encoder is out of scope); the compression-scheme byte 2 (zlib) is
prepended, giving the source's `buffer`.  `now` is the injected wall clock. -/
def write_chunk (r : AnvilRegion) (chunk_x chunk_z : Nat)
    (payload_len : Nat) (payload : Nat → Nat) (now : Nat) :
    AnvilRegion × Except ChunkSaveError Unit :=
  let buffer_len := payload_len + 1
  let bufferFn : Nat → Nat := fun i => if i = 0 then 2 else payload (i - 1)
  let length := (buffer_len + 4) % 2 ^ 32
  if CHUNK_MAXIMUM_BYTES_LENGTH < length then
    (r, Except.error (ChunkSaveError.lengthExceedsMaximum length))
  else
    match find_place r chunk_x chunk_z length with
    | (r1, Except.error _) => (r1, Except.error ChunkSaveError.writeError)
    | (r1, Except.ok metadata0) =>
      let seek := metadata0.sector_index * REGION_SECTOR_BYTES_LENGTH
      let f1 := writeU32BE r1.file seek (buffer_len % 2 ^ 32)
      let f2 := writeBytesF f1 (seek + 4) buffer_len bufferFn
      let padding := REGION_SECTOR_BYTES_LENGTH - length % 65536 % REGION_SECTOR_BYTES_LENGTH
      let f3 := writeBytesF f2 (seek + 4 + buffer_len) padding (fun _ => 0)
      let metadata := { metadata0 with last_modified_timestamp := now % 2 ^ 32 }
      (update_metadata { r1 with file := f3 } chunk_x chunk_z metadata, Except.ok ())

/-- `AnvilRegion::read_chunk` (lines 344-376). -/
def read_chunk {α : Type} (codec : NbtCodec α) (r : AnvilRegion)
    (chunk_x chunk_z : Nat) : Except ChunkLoadError α :=
  let metadata := get_metadata r chunk_x chunk_z
  if metadata.sectors = 0 then Except.error (ChunkLoadError.chunkNotFound chunk_x chunk_z)
  else
    let seek := metadata.sector_index * REGION_SECTOR_BYTES_LENGTH
    let maximum_length := min (metadata.sectors * REGION_SECTOR_BYTES_LENGTH)
      CHUNK_MAXIMUM_BYTES_LENGTH
    match readU32BE r.file seek with
    | none => Except.error ChunkLoadError.readError
    | some length =>
      if maximum_length < length then
        Except.error (ChunkLoadError.lengthExceedsMaximum length maximum_length)
      else
        match readByteF r.file (seek + 4) with
        | none => Except.error ChunkLoadError.readError
        | some compression_scheme =>
          if seek + 5 + payloadByteLen length ≤ r.file.len then
            let payloadFn : Nat → Nat := fun i => r.file.data (seek + 5 + i)
            if compression_scheme = 1 then
              match codec.read_gzip (payloadByteLen length) payloadFn with
              | Except.ok t => Except.ok t
              | Except.error _ => Except.error ChunkLoadError.tagDecodeError
            else if compression_scheme = 2 then
              match codec.read_zlib (payloadByteLen length) payloadFn with
              | Except.ok t => Except.ok t
              | Except.error _ => Except.error ChunkLoadError.tagDecodeError
            else Except.error (ChunkLoadError.unsupportedCompressionScheme compression_scheme)
          else Except.error ChunkLoadError.readError

/-- Region coordinate of a chunk coordinate: the source's arithmetic shift
`chunk_x >> 5` on an `i32`, i.e. floor division by 32. -/
def regionCoord (c : Int) : Int := Int.fdiv c 32

/-- Local coordinate of a chunk coordinate: the source's `(chunk_x & 31) as
u8`, i.e. the nonnegative residue mod 32. -/
def localCoord (c : Int) : Nat := (c % 32).toNat

/-- `AnvilChunkProvider::load_chunk` (lines 163-181).  The region folder is
modelled as a partial map from region coordinates to region files; an absent
entry is an absent `r.{x}.{z}.mca` file. -/
def load_chunk {α : Type} (codec : NbtCodec α) (regions : Int → Int → Option FileM)
    (chunk_x chunk_z : Int) : Except ChunkLoadError α :=
  let region_x := regionCoord chunk_x
  let region_z := regionCoord chunk_z
  match regions region_x region_z with
  | none => Except.error (ChunkLoadError.regionNotFound region_x region_z)
  | some f => read_chunk codec (AnvilRegion.new f) (localCoord chunk_x) (localCoord chunk_z)

/-- `AnvilChunkProvider::save_chunk` (lines 204-227): open (or create empty)
the region file for the derived coordinates, write, and store the resulting
file back into the folder map. -/
def save_chunk (regions : Int → Int → Option FileM) (chunk_x chunk_z : Int)
    (payload_len : Nat) (payload : Nat → Nat) (now : Nat) :
    (Int → Int → Option FileM) × Except ChunkSaveError Unit :=
  let region_x := regionCoord chunk_x
  let region_z := regionCoord chunk_z
  let f0 := (regions region_x region_z).getD ⟨0, fun _ => 0⟩
  let (r1, e) := write_chunk (AnvilRegion.new f0) (localCoord chunk_x) (localCoord chunk_z)
    payload_len payload now
  (fun a b => if a = region_x ∧ b = region_z then some r1.file else regions a b, e)

/-!
Helper notions used to state the claims, and concrete fixtures.
-/

/-- Length of the run of free sectors at the end of `[0, t)` as the scan loop
sees them (an index is free when it is inside the bitmap and its bit is
clear). -/
def trailingFree (v : BitV) : Nat → Nat
  | 0 => 0
  | t + 1 => if t < v.len ∧ v.bits t = false then trailingFree v t + 1 else 0

/-- The header invariant of spec §3: a non-empty slot's sector range starts
at sector 2 or later (never overlapping the two header sectors) and is
disjoint from every other non-empty slot's range. -/
def headerInvariant (r : AnvilRegion) : Prop :=
  ∀ i < 1024,
    ((r.chunks_metadata i).sectors ≠ 0 → 2 ≤ (r.chunks_metadata i).sector_index) ∧
    ((r.chunks_metadata i).sectors = 0 ∨
      ∀ j < 1024,
        (j ≠ i ∧ (r.chunks_metadata j).sectors ≠ 0) →
        ((r.chunks_metadata i).sector_index + (r.chunks_metadata i).sectors ≤
          (r.chunks_metadata j).sector_index ∨
         (r.chunks_metadata j).sector_index + (r.chunks_metadata j).sectors ≤
          (r.chunks_metadata i).sector_index))

/-- An empty (freshly created, zero-length) region file. -/
def freshFile : FileM := ⟨0, fun _ => 0⟩

/-- A trivial codec used for claims that never reach decoding. -/
def codecU : NbtCodec Unit := ⟨fun _ _ => Except.ok (), fun _ _ => Except.ok ()⟩

/-- A codec whose zlib decoder returns the raw payload bytes as a list (its
gzip side always fails); it round-trips with the identity encoder. -/
def codecL : NbtCodec (List Nat) :=
  ⟨fun _ _ => Except.error (), fun n g => Except.ok ((List.range n).map g)⟩

/-- Region file fixture: slot 1 holds sectors `[2, 3)`, slot 2 holds
`[4, 5)`, the file is 5 sectors long, so the only free sector is 3. -/
def F2 : FileM := ⟨20480, fun b =>
  if b = 6 then 2 else if b = 7 then 1 else
  if b = 10 then 4 else if b = 11 then 1 else 0⟩

/-- Region file fixture: slot 1 holds sector `[3, 4)`, the file is 5 sectors
long, so sectors 2 and 4 are free. -/
def F0 : FileM := ⟨20480, fun b => if b = 6 then 3 else if b = 7 then 1 else 0⟩

/-- Region file fixture: slot 0 points at sector 2 with 1 sector, and the
chunk record there has length word 0. -/
def F10 : FileM := ⟨12288, fun b => if b = 2 then 2 else if b = 3 then 1 else 0⟩

/-- Region file fixture: slot 0 points at sector 2 (1 sector); the record's
length word at byte 8192 is 5000, exceeding the 4096-byte slot capacity. -/
def F6a : FileM := ⟨12288, fun b => if b = 2 then 2 else if b = 3 then 1 else
  if b = 8194 then 19 else if b = 8195 then 136 else 0⟩

/-- Region file fixture: slot 0 points at sector 2 (1 sector); the record
there has length word 10 and compression-scheme byte 3. -/
def F6b : FileM := ⟨12288, fun b => if b = 2 then 2 else if b = 3 then 1 else
  if b = 8195 then 10 else if b = 8196 then 3 else 0⟩

/-- Region file fixture for the in-place overwrite: slot 0 holds sector
`[2, 3)` and the file is 3 sectors long. -/
def F8 : FileM := ⟨12288, fun b => if b = 2 then 2 else if b = 3 then 1 else 0⟩

/-!
Basic lemmas about the file and bitmap models.
-/

theorem writeBytesF_len (f : FileM) (off n : Nat) (g : Nat → Nat) :
    (writeBytesF f off n g).len = max f.len (off + n) := rfl

theorem writeBytesF_data_out (f : FileM) (off n : Nat) (g : Nat → Nat) (i : Nat)
    (h : i < off ∨ off + n ≤ i) : (writeBytesF f off n g).data i = f.data i := by
  unfold writeBytesF
  dsimp only
  rw [if_neg]
  omega

theorem writeBytesF_data_in (f : FileM) (off n : Nat) (g : Nat → Nat) (i : Nat)
    (h1 : off ≤ i) (h2 : i < off + n) : (writeBytesF f off n g).data i = g (i - off) := by
  unfold writeBytesF
  dsimp only
  rw [if_pos ⟨h1, h2⟩]

theorem writeU32BE_len (f : FileM) (off v : Nat) :
    (writeU32BE f off v).len = max f.len (off + 4) := rfl

theorem writeU32BE_data_out (f : FileM) (off v : Nat) (i : Nat)
    (h : i < off ∨ off + 4 ≤ i) : (writeU32BE f off v).data i = f.data i :=
  writeBytesF_data_out _ _ _ _ _ h

theorem writeU32BE_data_in (f : FileM) (off v : Nat) (j : Nat) (h : j < 4) :
    (writeU32BE f off v).data (off + j) = u32beByte (v % 2 ^ 32) j := by
  unfold writeU32BE
  rw [writeBytesF_data_in _ _ _ _ _ (by omega) (by omega)]
  congr 1
  omega

theorem u32be_readback (v : Nat) (h : v < 2 ^ 32) :
    u32beByte v 0 * 2 ^ 24 + u32beByte v 1 * 2 ^ 16 +
      u32beByte v 2 * 2 ^ 8 + u32beByte v 3 = v := by
  unfold u32beByte
  norm_num
  omega

theorem scanGo_inl_required (v : BitV) (required : Nat) :
    ∀ fuel i free p k, scanGo v required fuel i free = Sum.inl (p, k) → k = required := by
  intro fuel
  induction fuel with
  | zero => intro i free p k h; simp [scanGo] at h
  | succ n ih =>
    intro i free p k h
    unfold scanGo at h
    split at h
    · exact ih _ _ _ _ h
    · simp only [] at h
      split at h
      next heq =>
        simp only [Sum.inl.injEq, Prod.mk.injEq] at h
        rw [← h.2]
        exact heq
      next => exact ih _ _ _ _ h

theorem trailingFree_le (v : BitV) : ∀ t, trailingFree v t ≤ t := by
  intro t
  induction t with
  | zero => simp [trailingFree]
  | succ n ih =>
    unfold trailingFree
    split
    · omega
    · omega

theorem trailingFree_spec (v : BitV) :
    ∀ t j, t - trailingFree v t ≤ j → j < t → j < v.len ∧ v.bits j = false := by
  intro t
  induction t with
  | zero => intro j h1 h2; omega
  | succ n ih =>
    intro j h1 h2
    unfold trailingFree at h1
    split at h1
    next hc =>
      by_cases hj : j = n
      · rw [hj]; exact hc
      · exact ih j (by omega) (by omega)
    next hc => omega

theorem trailingFree_eq (v : BitV) :
    ∀ c t, c ≤ t → (∀ j, t - c ≤ j → j < t → j < v.len ∧ v.bits j = false) →
      (t = c ∨ ¬(t - c - 1 < v.len ∧ v.bits (t - c - 1) = false)) →
      trailingFree v t = c := by
  intro c
  induction c with
  | zero =>
    intro t hct hrun hmax
    cases t with
    | zero => rfl
    | succ n =>
      unfold trailingFree
      rw [if_neg]
      rcases hmax with h | h
      · omega
      · have hidx : n + 1 - 0 - 1 = n := by omega
        rw [hidx] at h
        exact h
  | succ c ih =>
    intro t hct hrun hmax
    cases t with
    | zero => omega
    | succ n =>
      unfold trailingFree
      rw [if_pos (hrun n (by omega) (by omega))]
      have hrec : trailingFree v n = c := by
        refine ih n (by omega) (fun j hj1 hj2 => hrun j (by omega) (by omega)) ?_
        rcases hmax with h | h
        · left; omega
        · right
          have hidx : n + 1 - (c + 1) - 1 = n - c - 1 := by omega
          rw [hidx] at h
          exact h
      rw [hrec]

theorem scanGo_no_window (v : BitV) (total required : Nat)
    (hreq1 : 1 ≤ required) (hreq2 : required ≤ 255)
    (hnw : ∀ s < total, s + required ≤ total →
      ∃ j < required, ¬(s + j < v.len ∧ v.bits (s + j) = false)) :
    ∀ fuel i free, fuel + i = total → free ≤ i → free < required →
      (∀ j, i - free ≤ j → j < i → j < v.len ∧ v.bits j = false) →
      (i = free ∨ ¬(i - free - 1 < v.len ∧ v.bits (i - free - 1) = false)) →
      scanGo v required fuel i free = Sum.inr (trailingFree v total) := by
  intro fuel
  induction fuel with
  | zero =>
    intro i free h0 h1 h2 hrun hmax
    have hit : i = total := by omega
    rw [hit] at hrun hmax
    have he : trailingFree v total = free :=
      trailingFree_eq v free total (by omega) hrun hmax
    unfold scanGo
    rw [he]
  | succ n ih =>
    intro i free h0 h1 h2 hrun hmax
    have hi : i < total := by omega
    unfold scanGo
    split
    next hocc =>
      refine ih (i + 1) 0 (by omega) (by omega) (by omega)
        (fun j ha hb => absurd hb (by omega)) (Or.inr ?_)
      have hidx : i + 1 - 0 - 1 = i := by omega
      rw [hidx]
      rintro ⟨hlt, hbit⟩
      rcases hocc with h | h
      · omega
      · simp [h] at hbit
    next hocc =>
      push_neg at hocc
      have hfree1 : i < v.len := by omega
      have hfree2 : v.bits i = false := by
        rcases Bool.eq_false_or_eq_true (v.bits i) with h | h
        · exact absurd h hocc.2
        · exact h
      simp only []
      have hmod : (free + 1) % 256 = free + 1 := Nat.mod_eq_of_lt (by omega)
      rw [hmod]
      by_cases hreach : free + 1 = required
      · rw [if_pos hreach]
        exfalso
        obtain ⟨j, hj, hnotfree⟩ := hnw (i - free) (by omega) (by omega)
        apply hnotfree
        by_cases hjf : j = free
        · have hidx : i - free + j = i := by omega
          rw [hidx]
          exact ⟨hfree1, hfree2⟩
        · exact hrun (i - free + j) (by omega) (by omega)
      · rw [if_neg hreach]
        refine ih (i + 1) (free + 1) (by omega) (by omega) (by omega) ?_ ?_
        · intro j ha hb
          rcases (by omega : j < i ∨ j = i) with h | h
          · exact hrun j (by omega) h
          · rw [h]; exact ⟨hfree1, hfree2⟩
        · rcases hmax with h | h
          · left; omega
          · right
            have hidx : i + 1 - (free + 1) - 1 = i - free - 1 := by omega
            rw [hidx]
            exact h

theorem find_place_ok_sectors (r : AnvilRegion) (x z L : Nat) (r1 : AnvilRegion)
    (m : AnvilChunkMetadata)
    (h : find_place r x z L = (r1, Except.ok m)) : m.sectors = sectorsRequired L := by
  simp only [find_place] at h
  split at h
  next heq =>
    simp only [Prod.mk.injEq, Except.ok.injEq] at h
    rw [← h.2]
    exact heq
  next hne =>
    split at h
    next put k hscan =>
      split at h
      next => simp at h
      next =>
        simp only [Prod.mk.injEq, Except.ok.injEq] at h
        rw [← h.2]
        exact scanGo_inl_required _ _ _ _ _ _ _ hscan
    next free hscan =>
      simp only [Prod.mk.injEq, Except.ok.injEq] at h
      rw [← h.2]

set_option maxRecDepth 100000

/-- Claim C2: the claim states the first-fit scan returns the start index of
the earliest run of `sectors_required` consecutive free sectors.  On the
region of `F2` (sectors 0, 1, 2, 4 occupied; only sector 3 free) a 1-sector
request is placed at sector 2 — one **before** the free run (the source
computes `sector_index - sectors_free` instead of
`sector_index - sectors_free + 1`), an occupied sector — instead of at
sector 3, the start of the earliest (and only) free run. -/
theorem C2_first_fit_returns_occupied_sector :
    (find_place (AnvilRegion.new F2) 0 0 15).2 =
      Except.ok ⟨2, 1, 0⟩ ∧
    (AnvilRegion.new F2).used_sectors.len = 5 ∧
    (AnvilRegion.new F2).used_sectors.bits 2 = true ∧
    (AnvilRegion.new F2).used_sectors.bits 3 = false ∧
    sectorsRequired 15 = 1 :=
  ⟨rfl, rfl, rfl, rfl, rfl⟩

/-- Claim C4 (counterexample): `total_length = 256 * 4096 = 1048576` is
accepted (the guard only rejects strictly larger lengths), the claim says
`floor(1048576 / 4096) + 1 = 257` sectors are reserved, but the `as u8`
truncation in the source makes `sectorsRequired` return 1. -/
theorem C4_counterexample_at_exact_maximum :
    sectorsRequired 1048576 = 1 ∧
    1048576 / 4096 + 1 = 257 ∧
    ¬ CHUNK_MAXIMUM_BYTES_LENGTH < 1048576 := by
  refine ⟨rfl, by norm_num, ?_⟩
  unfold CHUNK_MAXIMUM_BYTES_LENGTH
  omega

/-- Claim C4 (amended): for every total length below `255 * 4096` (so the
`u8` cast of the sector quotient neither truncates nor wraps) the number of
sectors reserved is exactly `floor(total_length / 4096) + 1`; in particular
a total length that is an exact multiple of 4096 reserves one sector more
than the minimum. -/
theorem C4_sectors_required_formula (L : Nat) (h : L < 255 * 4096) :
    sectorsRequired L = L / 4096 + 1 := by
  unfold sectorsRequired REGION_SECTOR_BYTES_LENGTH
  omega

/-- Witness for C4: at `total_length = 8192` (an exact multiple of 4096) the
formula reserves `8192 / 4096 + 1 = 3` sectors, one more than the 2-sector
minimum. -/
theorem C4_sectors_required_formula_witness :
    sectorsRequired 8192 = 8192 / 4096 + 1 ∧ sectorsRequired 8192 = 3 :=
  ⟨C4_sectors_required_formula 8192 (by norm_num), rfl⟩

/-- Claim C5 (counterexample): a payload of `2 ^ 32 - 5` bytes gives a true
total length of `2 ^ 32` bytes, far above the 1 MiB maximum, yet the
`as u32` cast truncates it to 0, the write is accepted (`Except.ok`), and
the backing file grows — no `LengthExceedsMaximum`, and the state is
mutated. -/
theorem C5_counterexample_u32_truncation :
    (write_chunk (AnvilRegion.new freshFile) 0 0 (2 ^ 32 - 5) (fun _ => 0) 0).2 =
      Except.ok () ∧
    (write_chunk (AnvilRegion.new freshFile) 0 0 (2 ^ 32 - 5) (fun _ => 0) 0).1.file.len =
      4294979584 ∧
    CHUNK_MAXIMUM_BYTES_LENGTH < (2 ^ 32 - 5) + 1 + 4 := by
  refine ⟨rfl, rfl, ?_⟩
  unfold CHUNK_MAXIMUM_BYTES_LENGTH
  omega

/-- Claim C5 (amended): for every write whose total length
`payload_len + 5` exceeds `256 * 4096` and is below `2 ^ 32` (so the
`usize`-to-`u32` cast of the buffer length does not truncate), `write_chunk`
returns `LengthExceedsMaximum` carrying that total length and leaves the
region state — file, header array and bitmap — completely unchanged. -/
theorem C5_oversize_write_rejected (r : AnvilRegion) (x z pl : Nat) (pf : Nat → Nat)
    (now : Nat) (h1 : CHUNK_MAXIMUM_BYTES_LENGTH < pl + 5) (h2 : pl + 5 < 2 ^ 32) :
    write_chunk r x z pl pf now =
      (r, Except.error (ChunkSaveError.lengthExceedsMaximum (pl + 5))) := by
  simp only [write_chunk]
  have hm : (pl + 1 + 4) % 2 ^ 32 = pl + 5 := by
    rw [Nat.mod_eq_of_lt (by omega)]
  rw [hm, if_pos h1]

/-- Witness for C5: a payload of 1048572 bytes (total length 1048577, one
over the maximum) is rejected with `LengthExceedsMaximum 1048577` and the
region state is returned untouched. -/
theorem C5_oversize_write_rejected_witness :
    write_chunk (AnvilRegion.new freshFile) 0 0 1048572 (fun _ => 0) 0 =
      (AnvilRegion.new freshFile,
        Except.error (ChunkSaveError.lengthExceedsMaximum 1048577)) :=
  C5_oversize_write_rejected (AnvilRegion.new freshFile) 0 0 1048572 (fun _ => 0) 0
    (by unfold CHUNK_MAXIMUM_BYTES_LENGTH; omega) (by omega)

instance headerInvariantDecidable (r : AnvilRegion) : Decidable (headerInvariant r) := by
  unfold headerInvariant
  infer_instance

/-- Claim C7: the region of `F0` (slot 1 at sectors `[3, 4)`, sectors 2 and
4 free) satisfies the header invariant, but writing a 1-sector chunk into
slot 0 places it at `sector_index = 1` (the first-fit off-by-one lands one
sector before the free gap at 2), overlapping header sector 1, so the write
does not preserve the invariant. -/
theorem C7_invariant_not_preserved :
    headerInvariant (AnvilRegion.new F0) ∧
    (write_chunk (AnvilRegion.new F0) 0 0 10 (fun _ => 7) 1700000000).2 = Except.ok () ∧
    ((write_chunk (AnvilRegion.new F0) 0 0 10 (fun _ => 7) 1700000000).1.chunks_metadata 0) =
      ⟨1, 1, 1700000000⟩ ∧
    ¬ headerInvariant (write_chunk (AnvilRegion.new F0) 0 0 10 (fun _ => 7) 1700000000).1 := by
  have hmeta : (AnvilRegion.new F0).chunks_metadata = read_header F0 := rfl
  have hempty : ∀ i, i ≠ 1 → (read_header F0 i).sectors = 0 := by
    intro i h
    show (F0.data (4 * i) * 2 ^ 24 + F0.data (4 * i + 1) * 2 ^ 16 +
      F0.data (4 * i + 2) * 2 ^ 8 + F0.data (4 * i + 3)) % 256 = 0
    have d0 : F0.data (4 * i) = 0 := by
      show (if 4 * i = 6 then 3 else if 4 * i = 7 then 1 else 0) = 0
      rw [if_neg (by omega), if_neg (by omega)]
    have d1 : F0.data (4 * i + 1) = 0 := by
      show (if 4 * i + 1 = 6 then 3 else if 4 * i + 1 = 7 then 1 else 0) = 0
      rw [if_neg (by omega), if_neg (by omega)]
    have d2 : F0.data (4 * i + 2) = 0 := by
      show (if 4 * i + 2 = 6 then 3 else if 4 * i + 2 = 7 then 1 else 0) = 0
      rw [if_neg (by omega), if_neg (by omega)]
    have d3 : F0.data (4 * i + 3) = 0 := by
      show (if 4 * i + 3 = 6 then 3 else if 4 * i + 3 = 7 then 1 else 0) = 0
      rw [if_neg (by omega), if_neg (by omega)]
    rw [d0, d1, d2, d3]
    norm_num
  have hfull : read_header F0 1 = ⟨3, 1, 0⟩ := rfl
  have hm0 : (write_chunk (AnvilRegion.new F0) 0 0 10 (fun _ => 7) 1700000000).1.chunks_metadata 0 =
      ⟨1, 1, 1700000000⟩ := rfl
  refine ⟨?_, rfl, hm0, ?_⟩
  · intro i hi
    rw [hmeta]
    by_cases h1 : i = 1
    · subst h1
      refine ⟨fun _ => ?_, Or.inr ?_⟩
      · rw [hfull]
        norm_num
      · intro j hj hcond
        exact absurd (hempty j hcond.1) hcond.2
    · exact ⟨fun hne => absurd (hempty i h1) hne, Or.inl (hempty i h1)⟩
  · intro hinv
    have h2 := (hinv 0 (by norm_num)).1
    rw [hm0] at h2
    exact absurd (h2 (by decide)) (by decide)

/-- Claim C10: the claim states a record whose stored length word is 0 is
handled without the `length - 1` buffer-size computation underflowing.  On
the region of `F10` (slot 0 occupied, record length word 0) the length word
passes the maximum-length check, the `u32` subtraction `0 - 1` wraps to
`2 ^ 32 - 1 = 4294967295` (a panic in debug builds), and the resulting
4 GiB `read_exact` fails past the end of the file, surfacing as a
`ReadError`. -/
theorem C10_zero_length_word_underflow :
    readU32BE (AnvilRegion.new F10).file 8192 = some 0 ∧
    payloadByteLen 0 = 4294967295 ∧
    read_chunk codecU (AnvilRegion.new F10) 0 0 = Except.error ChunkLoadError.readError :=
  ⟨rfl, rfl, rfl⟩

/-- Claim C9: the region coordinate is the arithmetic-shift floor
`chunk >> 5` (witnessed by the unique decomposition
`chunk = 32 * region + local` with the local coordinate in `[0, 31]`),
chunk coordinate `-1` maps to region `-1` and local `31`, and when the
region file is absent `load_chunk` fails with `RegionNotFound` carrying the
derived region coordinates. -/
theorem C9_coordinate_folding {α : Type} (codec : NbtCodec α)
    (regions : Int → Int → Option FileM) (chunk_x chunk_z : Int) :
    localCoord chunk_x ≤ 31 ∧
    32 * regionCoord chunk_x + (localCoord chunk_x : Int) = chunk_x ∧
    regionCoord (-1) = -1 ∧ localCoord (-1) = 31 ∧
    (regions (regionCoord chunk_x) (regionCoord chunk_z) = none →
      load_chunk codec regions chunk_x chunk_z =
        Except.error (ChunkLoadError.regionNotFound (regionCoord chunk_x)
          (regionCoord chunk_z))) := by
  have h0 : (0 : Int) ≤ chunk_x % 32 := Int.emod_nonneg chunk_x (by norm_num)
  have h1 : chunk_x % 32 < (32 : Int) := Int.emod_lt_of_pos chunk_x (by norm_num)
  refine ⟨?_, ?_, by decide, by decide, ?_⟩
  · unfold localCoord
    omega
  · unfold localCoord regionCoord
    rw [Int.toNat_of_nonneg h0, Int.fdiv_eq_ediv chunk_x (by norm_num)]
    exact Int.ediv_add_emod chunk_x 32
  · intro hnone
    simp only [load_chunk]
    rw [hnone]

/-- Witness for C9: the repository's own scenario — loading chunk
`(100, 100)` with no region files present fails with
`RegionNotFound{region_x = 3, region_z = 3}` (the derived coordinates
`100 >> 5 = 3`, not the inputs). -/
theorem C9_coordinate_folding_witness :
    regionCoord 100 = 3 ∧ localCoord 100 = 4 ∧
    load_chunk codecU (fun _ _ => none) 100 100 =
      Except.error (ChunkLoadError.regionNotFound 3 3) := by
  have h := (C9_coordinate_folding codecU (fun _ _ => none) 100 100).2.2.2.2 rfl
  refine ⟨by decide, by decide, ?_⟩
  have h3 : regionCoord 100 = 3 := by decide
  rw [h3] at h
  exact h

/-- Claim C6: on an occupied slot, with
`max_length = min(sector_count * 4096, 256 * 4096)`: a stored length word
`L > max_length` yields `LengthExceedsMaximum{L, max_length}` (returned
before any buffer allocation — no panic, overrun or truncation in the
model's total function), and a readable record whose compression-scheme
byte is neither 1 (gzip) nor 2 (zlib) yields `UnsupportedCompressionScheme`
carrying that byte. -/
theorem C6_corruption_surfaces_as_typed_errors {α : Type} (codec : NbtCodec α)
    (r : AnvilRegion) (x z : Nat)
    (hne : (get_metadata r x z).sectors ≠ 0) :
    (∀ L, readU32BE r.file ((get_metadata r x z).sector_index * REGION_SECTOR_BYTES_LENGTH) =
        some L →
      min ((get_metadata r x z).sectors * REGION_SECTOR_BYTES_LENGTH)
        CHUNK_MAXIMUM_BYTES_LENGTH < L →
      read_chunk codec r x z = Except.error (ChunkLoadError.lengthExceedsMaximum L
        (min ((get_metadata r x z).sectors * REGION_SECTOR_BYTES_LENGTH)
          CHUNK_MAXIMUM_BYTES_LENGTH))) ∧
    (∀ L s, readU32BE r.file ((get_metadata r x z).sector_index * REGION_SECTOR_BYTES_LENGTH) =
        some L →
      ¬ min ((get_metadata r x z).sectors * REGION_SECTOR_BYTES_LENGTH)
        CHUNK_MAXIMUM_BYTES_LENGTH < L →
      readByteF r.file ((get_metadata r x z).sector_index * REGION_SECTOR_BYTES_LENGTH + 4) =
        some s →
      (get_metadata r x z).sector_index * REGION_SECTOR_BYTES_LENGTH + 5 + payloadByteLen L ≤
        r.file.len →
      s ≠ 1 → s ≠ 2 →
      read_chunk codec r x z = Except.error (ChunkLoadError.unsupportedCompressionScheme s)) := by
  constructor
  · intro L hread hover
    simp only [read_chunk]
    rw [if_neg hne, hread]
    dsimp only
    rw [if_pos hover]
  · intro L s hread hover hscheme hbound hs1 hs2
    simp only [read_chunk]
    rw [if_neg hne, hread]
    dsimp only
    rw [if_neg hover, hscheme]
    dsimp only
    rw [if_pos hbound, if_neg hs1, if_neg hs2]

/-- Witness for C6: on the region of `F6a` (slot 0, 1 sector, length word
5000) reading yields `LengthExceedsMaximum{5000, 4096}`; on the region of
`F6b` (slot 0, length word 10, scheme byte 3) reading yields
`UnsupportedCompressionScheme{3}`. -/
theorem C6_corruption_surfaces_witness :
    read_chunk codecU (AnvilRegion.new F6a) 0 0 =
      Except.error (ChunkLoadError.lengthExceedsMaximum 5000 4096) ∧
    read_chunk codecU (AnvilRegion.new F6b) 0 0 =
      Except.error (ChunkLoadError.unsupportedCompressionScheme 3) := by
  constructor
  · have h := (C6_corruption_surfaces_as_typed_errors codecU (AnvilRegion.new F6a) 0 0
      (by decide)).1 5000 (by decide) (by decide)
    rw [h]
    rfl
  · have h := (C6_corruption_surfaces_as_typed_errors codecU (AnvilRegion.new F6b) 0 0
      (by decide)).2 10 3 (by decide) (by decide) (by decide) (by decide)
      (by decide) (by decide)
    rw [h]

theorem sectorsRequired_eq_of_lt (L : Nat) (h : L < 255 * 4096) :
    sectorsRequired L = L / 4096 + 1 := by
  unfold sectorsRequired REGION_SECTOR_BYTES_LENGTH
  omega

/-- Claim C8: when the slot's existing `sector_count` equals
`sectors_required`, the chunk is rewritten in place: the write succeeds, the
sector bitmap is completely untouched, the backing file length is unchanged
(the record plus padding fits exactly inside the slot's existing sector
range, which lies inside the file), and the slot keeps its `sector_index`
and `sector_count`. -/
theorem C8_in_place_overwrite (r : AnvilRegion) (x z pl : Nat) (pf : Nat → Nat) (now : Nat)
    (hx : x < 32) (hz : z < 32)
    (hlen0 : 8192 ≤ r.file.len)
    (hL : pl + 5 < 255 * 4096)
    (heq : (get_metadata r x z).sectors = sectorsRequired (pl + 5))
    (hbound : ((get_metadata r x z).sector_index + (get_metadata r x z).sectors) *
      4096 ≤ r.file.len) :
    (write_chunk r x z pl pf now).2 = Except.ok () ∧
    (write_chunk r x z pl pf now).1.used_sectors = r.used_sectors ∧
    (write_chunk r x z pl pf now).1.file.len = r.file.len ∧
    ((write_chunk r x z pl pf now).1.chunks_metadata (metadata_index x z)).sector_index =
      (get_metadata r x z).sector_index ∧
    ((write_chunk r x z pl pf now).1.chunks_metadata (metadata_index x z)).sectors =
      (get_metadata r x z).sectors := by
  have hlen5 : (pl + 1 + 4) % 2 ^ 32 = pl + 5 := by
    rw [Nat.mod_eq_of_lt (by omega)]
  have hnomax : ¬ CHUNK_MAXIMUM_BYTES_LENGTH < pl + 5 := by
    unfold CHUNK_MAXIMUM_BYTES_LENGTH
    omega
  have hfp : find_place r x z (pl + 5) = (r, Except.ok (get_metadata r x z)) := by
    simp only [find_place]
    rw [if_pos heq]
  have hidx : metadata_index x z ≤ 1023 := by
    unfold metadata_index
    omega
  have hsec : (get_metadata r x z).sectors = (pl + 5) / 4096 + 1 :=
    heq.trans (sectorsRequired_eq_of_lt _ hL)
  have hb2 : ((get_metadata r x z).sector_index + ((pl + 5) / 4096 + 1)) * 4096 ≤
      r.file.len := by
    rw [← hsec]
    exact hbound
  simp only [write_chunk]
  rw [hlen5, if_neg hnomax, hfp]
  dsimp only
  simp only [update_metadata]
  refine ⟨by trivial, by trivial, ?_, by simp, by simp⟩
  simp only [writeU32BE, writeBytesF_len, REGION_SECTOR_BYTES_LENGTH]
  omega

/-- Witness for C8: the region of `F8` has slot 0 at sectors `[2, 3)` in a
3-sector file; rewriting it with a 10-byte payload (1 sector required)
succeeds in place, leaving bitmap, file length, `sector_index` and
`sector_count` unchanged. -/
theorem C8_in_place_overwrite_witness :
    (write_chunk (AnvilRegion.new F8) 0 0 10 (fun _ => 3) 777).2 = Except.ok () ∧
    (write_chunk (AnvilRegion.new F8) 0 0 10 (fun _ => 3) 777).1.used_sectors =
      (AnvilRegion.new F8).used_sectors ∧
    (write_chunk (AnvilRegion.new F8) 0 0 10 (fun _ => 3) 777).1.file.len =
      (AnvilRegion.new F8).file.len ∧
    ((write_chunk (AnvilRegion.new F8) 0 0 10 (fun _ => 3) 777).1.chunks_metadata
      (metadata_index 0 0)).sector_index =
      (get_metadata (AnvilRegion.new F8) 0 0).sector_index ∧
    ((write_chunk (AnvilRegion.new F8) 0 0 10 (fun _ => 3) 777).1.chunks_metadata
      (metadata_index 0 0)).sectors =
      (get_metadata (AnvilRegion.new F8) 0 0).sectors :=
  C8_in_place_overwrite (AnvilRegion.new F8) 0 0 10 (fun _ => 3) 777
    (by norm_num) (by norm_num) (by decide) (by norm_num) (by decide) (by decide)

/-- Claim C3 (counterexample): writing a payload of 1048571 bytes (total
length exactly `256 * 4096`, which is accepted) into a fresh region grows
the file by 257 sectors but appends only **one** occupied bit to the bitmap
(the `u8`-truncated `sectors_required` is 1), so the file growth and the
bits appended cannot both equal "`sectors_required` minus the trailing free
run" for any value of `sectors_required`. -/
theorem C3_counterexample_growth_mismatch :
    (write_chunk (AnvilRegion.new freshFile) 0 0 1048571 (fun _ => 0) 99).2 =
      Except.ok () ∧
    (write_chunk (AnvilRegion.new freshFile) 0 0 1048571 (fun _ => 0) 99).1.file.len =
      (AnvilRegion.new freshFile).file.len + 257 * 4096 ∧
    (write_chunk (AnvilRegion.new freshFile) 0 0 1048571 (fun _ => 0) 99).1.used_sectors.len = 3 ∧
    (AnvilRegion.new freshFile).used_sectors.len = 2 ∧
    ¬ CHUNK_MAXIMUM_BYTES_LENGTH < 1048571 + 5 := by
  refine ⟨rfl, rfl, rfl, rfl, ?_⟩
  unfold CHUNK_MAXIMUM_BYTES_LENGTH
  omega

/-- Claim C3 (amended): for a write with total length below `255 * 4096`
(avoiding the `u8` truncation of `sectors_required`) that cannot be placed
in the slot's old sectors (`sector_count ≠ sectors_required`) and for which,
after the old range is released, no run of `sectors_required` consecutive
free sectors exists in the bitmap, `write_chunk`: grows the file by exactly
`sectors_required` minus the trailing free run, in whole 4096-byte sectors
(so the file never shrinks); appends exactly that many occupied bits to the
released bitmap (changing nothing else in it); and places the chunk at the
first sector of the trailing free run. -/
theorem C3_growth_exact (r : AnvilRegion) (x z pl : Nat) (pf : Nat → Nat) (now : Nat)
    (hx : x < 32) (hz : z < 32)
    (hlen0 : 8192 ≤ r.file.len)
    (halign : r.file.len % 4096 = 0)
    (hsize : r.file.len < 2 ^ 32)
    (hL : pl + 5 < 255 * 4096)
    (hne : (get_metadata r x z).sectors ≠ sectorsRequired (pl + 5))
    (hnw : ∀ s < r.file.len / 4096,
      s + sectorsRequired (pl + 5) ≤ r.file.len / 4096 →
      ∃ j < sectorsRequired (pl + 5),
        ¬(s + j < (releaseSectors r.used_sectors (get_metadata r x z).sector_index
            (get_metadata r x z).sectors).len ∧
          (releaseSectors r.used_sectors (get_metadata r x z).sector_index
            (get_metadata r x z).sectors).bits (s + j) = false)) :
    (write_chunk r x z pl pf now).2 = Except.ok () ∧
    (write_chunk r x z pl pf now).1.file.len =
      r.file.len + (sectorsRequired (pl + 5) -
        trailingFree (releaseSectors r.used_sectors (get_metadata r x z).sector_index
          (get_metadata r x z).sectors) (r.file.len / 4096)) * 4096 ∧
    (write_chunk r x z pl pf now).1.used_sectors =
      BitV.pushN (releaseSectors r.used_sectors (get_metadata r x z).sector_index
        (get_metadata r x z).sectors)
        (sectorsRequired (pl + 5) -
          trailingFree (releaseSectors r.used_sectors (get_metadata r x z).sector_index
            (get_metadata r x z).sectors) (r.file.len / 4096)) true ∧
    (write_chunk r x z pl pf now).1.chunks_metadata (metadata_index x z) =
      ⟨r.file.len / 4096 -
        trailingFree (releaseSectors r.used_sectors (get_metadata r x z).sector_index
          (get_metadata r x z).sectors) (r.file.len / 4096),
        sectorsRequired (pl + 5), now % 2 ^ 32⟩ := by
  have hreqeq : sectorsRequired (pl + 5) = (pl + 5) / 4096 + 1 :=
    sectorsRequired_eq_of_lt _ hL
  have hreq1 : 1 ≤ sectorsRequired (pl + 5) := by omega
  have hreq255 : sectorsRequired (pl + 5) ≤ 255 := by
    have : (pl + 5) / 4096 < 255 := by omega
    omega
  have htotal2 : 2 ≤ r.file.len / 4096 := by omega
  have htfle : trailingFree (releaseSectors r.used_sectors (get_metadata r x z).sector_index
      (get_metadata r x z).sectors) (r.file.len / 4096) ≤ r.file.len / 4096 :=
    trailingFree_le _ _
  have htf_lt : trailingFree (releaseSectors r.used_sectors (get_metadata r x z).sector_index
      (get_metadata r x z).sectors) (r.file.len / 4096) < sectorsRequired (pl + 5) := by
    by_cases hc : sectorsRequired (pl + 5) ≤ r.file.len / 4096
    · by_contra hcon
      obtain ⟨j, hj, hnot⟩ := hnw (r.file.len / 4096 - sectorsRequired (pl + 5))
        (by omega) (by omega)
      exact hnot (trailingFree_spec _ (r.file.len / 4096) _ (by omega) (by omega))
    · omega
  have hscan : scanGo (releaseSectors r.used_sectors (get_metadata r x z).sector_index
        (get_metadata r x z).sectors) (sectorsRequired (pl + 5)) (r.file.len / 4096) 0 0 =
      Sum.inr (trailingFree (releaseSectors r.used_sectors (get_metadata r x z).sector_index
        (get_metadata r x z).sectors) (r.file.len / 4096)) :=
    scanGo_no_window _ _ _ hreq1 hreq255 hnw (r.file.len / 4096) 0 0 (by omega) (by omega)
      (by omega) (fun j ha hb => absurd hb (by omega)) (Or.inl rfl)
  have hlen5 : (pl + 1 + 4) % 2 ^ 32 = pl + 5 := by
    rw [Nat.mod_eq_of_lt (by omega)]
  have hnomax : ¬ CHUNK_MAXIMUM_BYTES_LENGTH < pl + 5 := by
    unfold CHUNK_MAXIMUM_BYTES_LENGTH
    omega
  have htf255 : trailingFree (releaseSectors r.used_sectors (get_metadata r x z).sector_index
      (get_metadata r x z).sectors) (r.file.len / 4096) % 256 =
      trailingFree (releaseSectors r.used_sectors (get_metadata r x z).sector_index
        (get_metadata r x z).sectors) (r.file.len / 4096) :=
    Nat.mod_eq_of_lt (by omega)
  have hext : (sectorsRequired (pl + 5) + 256 -
      trailingFree (releaseSectors r.used_sectors (get_metadata r x z).sector_index
        (get_metadata r x z).sectors) (r.file.len / 4096)) % 256 =
      sectorsRequired (pl + 5) -
      trailingFree (releaseSectors r.used_sectors (get_metadata r x z).sector_index
        (get_metadata r x z).sectors) (r.file.len / 4096) := by
    omega
  have htot32 : r.file.len / 4096 % 2 ^ 32 = r.file.len / 4096 :=
    Nat.mod_eq_of_lt (by omega)
  have htf32 : trailingFree (releaseSectors r.used_sectors (get_metadata r x z).sector_index
      (get_metadata r x z).sectors) (r.file.len / 4096) % 2 ^ 32 =
      trailingFree (releaseSectors r.used_sectors (get_metadata r x z).sector_index
        (get_metadata r x z).sectors) (r.file.len / 4096) :=
    Nat.mod_eq_of_lt (by omega)
  have hput : (r.file.len / 4096 % 2 ^ 32 + 2 ^ 32 -
      trailingFree (releaseSectors r.used_sectors (get_metadata r x z).sector_index
        (get_metadata r x z).sectors) (r.file.len / 4096) % 2 ^ 32) % 2 ^ 32 =
      r.file.len / 4096 -
      trailingFree (releaseSectors r.used_sectors (get_metadata r x z).sector_index
        (get_metadata r x z).sectors) (r.file.len / 4096) := by
    rw [htot32, htf32]
    omega
  have hidx : metadata_index x z ≤ 1023 := by
    unfold metadata_index
    omega
  have htot : 4096 * (r.file.len / 4096) = r.file.len :=
    Nat.mul_div_cancel' (Nat.dvd_of_mod_eq_zero halign)
  simp only [write_chunk, find_place, REGION_SECTOR_BYTES_LENGTH, CHUNK_MAXIMUM_BYTES_LENGTH]
  rw [hlen5]
  rw [if_neg (by omega : ¬ 4096 * 256 < pl + 5)]
  rw [if_neg hne, hscan]
  dsimp only
  rw [htf255, hext, hput]
  simp only [update_metadata, writeU32BE, writeBytesF_len]
  refine ⟨by trivial, ?_, by trivial, by simp⟩
  simp only [setLenF]
  omega

theorem writeU32BE_data_in2 (f : FileM) (off v i : Nat) (h1 : off ≤ i) (h2 : i < off + 4) :
    (writeU32BE f off v).data i = u32beByte (v % 2 ^ 32) (i - off) :=
  writeBytesF_data_in _ _ _ _ _ h1 h2

theorem readU32BE_of_bytes (f : FileM) (off w : Nat) (hlen : off + 4 ≤ f.len)
    (hw : w < 2 ^ 32)
    (h0 : f.data off = u32beByte w 0) (h1 : f.data (off + 1) = u32beByte w 1)
    (h2 : f.data (off + 2) = u32beByte w 2) (h3 : f.data (off + 3) = u32beByte w 3) :
    readU32BE f off = some w := by
  unfold readU32BE
  rw [if_pos hlen, h0, h1, h2, h3]
  rw [u32be_readback w hw]

/-- Reading back the chunk record and header entry written by the success
path of `write_chunk`: provided the placement starts at sector 2 or later
(so the record does not collide with the header writes), fits the header
encoding (`sector_index < 2 ^ 24`), and the stored length word fits its
slot, `read_chunk` hands the zlib decoder exactly the written payload. -/
theorem write_then_read {α : Type} (codec : NbtCodec α) (t : α) (fbase : FileM)
    (x z pl : Nat) (pf : Nat → Nat) (si req P ts : Nat)
    (hx : x < 32) (hz : z < 32)
    (hsi2 : 2 ≤ si) (hsi24 : si < 2 ^ 24)
    (hreq1 : 1 ≤ req) (hreq255 : req ≤ 255)
    (hfits : pl + 1 ≤ req * 4096)
    (hdec : ∀ g : Nat → Nat, (∀ i, i < pl → g i = pf i) →
      codec.read_zlib pl g = Except.ok t) :
    read_chunk codec (AnvilRegion.new
      (writeU32BE (writeU32BE
        (writeBytesF (writeBytesF (writeU32BE fbase (si * 4096) ((pl + 1) % 2 ^ 32))
            (si * 4096 + 4) (pl + 1) (fun i => if i = 0 then 2 else pf (i - 1)))
          (si * 4096 + 4 + (pl + 1)) P (fun _ => 0))
        ((x + z * 32) * 4) (si * 256 % 2 ^ 32 + req % 256))
      ((x + z * 32) * 4 + 4096) ts)) x z = Except.ok t := by
  set bfn : Nat → Nat := fun i => if i = 0 then 2 else pf (i - 1) with hbfn
  set f1 := writeU32BE fbase (si * 4096) ((pl + 1) % 2 ^ 32) with hf1
  set f2 := writeBytesF f1 (si * 4096 + 4) (pl + 1) bfn with hf2
  set f3 := writeBytesF f2 (si * 4096 + 4 + (pl + 1)) P (fun _ => 0) with hf3
  set f4 := writeU32BE f3 ((x + z * 32) * 4) (si * 256 % 2 ^ 32 + req % 256) with hf4
  set F := writeU32BE f4 ((x + z * 32) * 4 + 4096) ts with hF
  have hidx : x + z * 32 ≤ 1023 := by omega
  have hlenF : si * 4096 + 4 + (pl + 1) ≤ F.len := by
    rw [hF, hf4, hf3, hf2]
    simp only [writeU32BE, writeBytesF_len]
    omega
  have hL32 : (pl + 1) % 2 ^ 32 = pl + 1 := Nat.mod_eq_of_lt (by omega)
  have hDrec : ∀ i, si * 4096 ≤ i → i < si * 4096 + 4 + (pl + 1) →
      F.data i = (if i < si * 4096 + 4 then u32beByte ((pl + 1) % 2 ^ 32) (i - si * 4096)
        else bfn (i - (si * 4096 + 4))) := by
    intro i h1 h2
    rw [hF, writeU32BE_data_out _ _ _ _ (Or.inr (by omega))]
    rw [hf4, writeU32BE_data_out _ _ _ _ (Or.inr (by omega))]
    rw [hf3, writeBytesF_data_out _ _ _ _ _ (Or.inl (by omega))]
    by_cases hc : i < si * 4096 + 4
    · rw [if_pos hc, hf2, writeBytesF_data_out _ _ _ _ _ (Or.inl (by omega))]
      rw [hf1, writeU32BE_data_in2 _ _ _ _ h1 (by omega)]
      congr 1
      omega
    · rw [if_neg hc, hf2, writeBytesF_data_in _ _ _ _ _ (by omega) (by omega)]
  have hread : readU32BE F (si * 4096) = some (pl + 1) := by
    refine readU32BE_of_bytes F (si * 4096) (pl + 1) (by omega) (by omega) ?_ ?_ ?_ ?_
    · rw [hDrec (si * 4096) (by omega) (by omega), if_pos (by omega), Nat.sub_self, hL32]
    · rw [hDrec (si * 4096 + 1) (by omega) (by omega), if_pos (by omega),
        Nat.add_sub_cancel_left, hL32]
    · rw [hDrec (si * 4096 + 2) (by omega) (by omega), if_pos (by omega),
        Nat.add_sub_cancel_left, hL32]
    · rw [hDrec (si * 4096 + 3) (by omega) (by omega), if_pos (by omega),
        Nat.add_sub_cancel_left, hL32]
  have hscheme : readByteF F (si * 4096 + 4) = some 2 := by
    unfold readByteF
    rw [if_pos (by omega)]
    rw [hDrec (si * 4096 + 4) (by omega) (by omega), if_neg (by omega), Nat.sub_self, hbfn]
    rfl
  have hW : si * 256 % 2 ^ 32 + req % 256 = si * 256 + req := by
    rw [Nat.mod_eq_of_lt (by omega), Nat.mod_eq_of_lt (by omega)]
  have hWlt : si * 256 + req < 2 ^ 32 := by omega
  have hHdr : ∀ j, j < 4 → F.data ((x + z * 32) * 4 + j) =
      u32beByte (si * 256 + req) j := by
    intro j hj
    rw [hF, writeU32BE_data_out _ _ _ _ (Or.inl (by omega))]
    rw [hf4, writeU32BE_data_in2 _ _ _ _ (by omega) (by omega), Nat.add_sub_cancel_left,
      hW, Nat.mod_eq_of_lt hWlt]
  have hb0 : F.data (4 * (x + z * 32)) = u32beByte (si * 256 + req) 0 := by
    have e : 4 * (x + z * 32) = (x + z * 32) * 4 + 0 := by omega
    rw [e]
    exact hHdr 0 (by omega)
  have hb1 : F.data (4 * (x + z * 32) + 1) = u32beByte (si * 256 + req) 1 := by
    have e : 4 * (x + z * 32) + 1 = (x + z * 32) * 4 + 1 := by omega
    rw [e]
    exact hHdr 1 (by omega)
  have hb2 : F.data (4 * (x + z * 32) + 2) = u32beByte (si * 256 + req) 2 := by
    have e : 4 * (x + z * 32) + 2 = (x + z * 32) * 4 + 2 := by omega
    rw [e]
    exact hHdr 2 (by omega)
  have hb3 : F.data (4 * (x + z * 32) + 3) = u32beByte (si * 256 + req) 3 := by
    have e : 4 * (x + z * 32) + 3 = (x + z * 32) * 4 + 3 := by omega
    rw [e]
    exact hHdr 3 (by omega)
  have hsi' : (read_header F (x + z * 32)).sector_index = si := by
    unfold read_header
    dsimp only
    rw [hb0, hb1, hb2, hb3, u32be_readback _ hWlt]
    omega
  have hsec' : (read_header F (x + z * 32)).sectors = req := by
    unfold read_header
    dsimp only
    rw [hb0, hb1, hb2, hb3, u32be_readback _ hWlt]
    omega
  have hnoext : ¬ REGION_HEADER_BYTES_LENGTH > F.len := by
    unfold REGION_HEADER_BYTES_LENGTH
    omega
  have hnew : AnvilRegion.new F = ⟨F, read_header F,
      usedSectorsOf (F.len / REGION_SECTOR_BYTES_LENGTH) (read_header F)⟩ := by
    simp only [AnvilRegion.new]
    rw [if_neg hnoext]
  have hpbl : payloadByteLen (pl + 1) = pl := by
    unfold payloadByteLen
    omega
  rw [hnew]
  simp only [read_chunk, get_metadata, metadata_index, REGION_SECTOR_BYTES_LENGTH,
    CHUNK_MAXIMUM_BYTES_LENGTH]
  rw [hsec', hsi']
  rw [if_neg (by omega : ¬ req = 0)]
  rw [hread]
  dsimp only
  rw [if_neg (by omega : ¬ min (req * 4096) (4096 * 256) < pl + 1)]
  rw [hscheme]
  dsimp only
  rw [hpbl]
  rw [if_pos (by omega : si * 4096 + 5 + pl ≤ F.len)]
  rw [if_neg (by omega : ¬ (2 : Nat) = 1), if_pos rfl]
  have hpay : ∀ i, i < pl → F.data (si * 4096 + 5 + i) = pf i := by
    intro i hi
    rw [hDrec (si * 4096 + 5 + i) (by omega) (by omega), if_neg (by omega)]
    have hix : si * 4096 + 5 + i - (si * 4096 + 4) = i + 1 := by omega
    rw [hix, hbfn]
    dsimp only
    rw [if_neg (by omega), Nat.add_sub_cancel]
  rw [hdec (fun i => F.data (si * 4096 + 5 + i)) hpay]

/-- Claim C1 (counterexample): saving an encodable value whose compressed
body is 1048571 bytes (total record length exactly `256 * 4096`, which the
spec's save path accepts) succeeds, but loading the same chunk back returns
`LengthExceedsMaximum{1048572, 4096}` instead of the value: the
`u8`-truncated `sectors_required` recorded only 1 sector in the header, so
the reader's slot capacity check rejects the record that was just
written. -/
theorem C1_counterexample_round_trip_at_max :
    (save_chunk (fun _ _ => none) 0 0 1048571 (fun _ => 0) 99).2 = Except.ok () ∧
    load_chunk codecL (save_chunk (fun _ _ => none) 0 0 1048571 (fun _ => 0) 99).1 0 0 =
      Except.error (ChunkLoadError.lengthExceedsMaximum 1048572 4096) ∧
    ¬ CHUNK_MAXIMUM_BYTES_LENGTH < 1048571 + 1 + 4 := by
  refine ⟨rfl, rfl, ?_⟩
  unfold CHUNK_MAXIMUM_BYTES_LENGTH
  omega

/-- Claim C1 (amended): for every value decodable from its own encoding
(`hdec`), every coordinate pair, and every region folder state, if the
record's total length stays below `255 * 4096` (avoiding the `u8` sector
truncation) and the placement chosen by `find_place` starts at sector 2 or
later with a header-encodable index (which the off-by-one first-fit can
violate when a freed gap starts at sector 2), then `save_chunk` followed by
`load_chunk` at the same chunk coordinates returns a value equal to the one
saved. -/
theorem C1_round_trip_amended {α : Type} (codec : NbtCodec α) (t : α)
    (regions : Int → Int → Option FileM) (chunk_x chunk_z : Int)
    (pl : Nat) (pf : Nat → Nat) (now : Nat)
    (hdec : ∀ g : Nat → Nat, (∀ i, i < pl → g i = pf i) →
      codec.read_zlib pl g = Except.ok t)
    (hL : pl + 5 < 255 * 4096)
    (m : AnvilChunkMetadata)
    (hfp : (find_place (AnvilRegion.new
        ((regions (regionCoord chunk_x) (regionCoord chunk_z)).getD ⟨0, fun _ => 0⟩))
        (localCoord chunk_x) (localCoord chunk_z) (pl + 5)).2 = Except.ok m)
    (hsi2 : 2 ≤ m.sector_index) (hsi24 : m.sector_index < 2 ^ 24) :
    load_chunk codec (save_chunk regions chunk_x chunk_z pl pf now).1 chunk_x chunk_z =
      Except.ok t := by
  have hlx : localCoord chunk_x < 32 := by
    unfold localCoord
    have h1 := Int.emod_nonneg chunk_x (by norm_num : (32 : Int) ≠ 0)
    have h2 := Int.emod_lt_of_pos chunk_x (by norm_num : (0 : Int) < 32)
    omega
  have hlz : localCoord chunk_z < 32 := by
    unfold localCoord
    have h1 := Int.emod_nonneg chunk_z (by norm_num : (32 : Int) ≠ 0)
    have h2 := Int.emod_lt_of_pos chunk_z (by norm_num : (0 : Int) < 32)
    omega
  rcases hpair : find_place (AnvilRegion.new
      ((regions (regionCoord chunk_x) (regionCoord chunk_z)).getD ⟨0, fun _ => 0⟩))
      (localCoord chunk_x) (localCoord chunk_z) (pl + 5) with ⟨r1, e1⟩
  rw [hpair] at hfp
  have hfp2 : e1 = Except.ok m := hfp
  subst hfp2
  have hsec : m.sectors = sectorsRequired (pl + 5) :=
    find_place_ok_sectors _ _ _ _ _ _ hpair
  have hreqeq : sectorsRequired (pl + 5) = (pl + 5) / 4096 + 1 :=
    sectorsRequired_eq_of_lt _ hL
  have hfits : pl + 1 ≤ m.sectors * 4096 := by
    rw [hsec, hreqeq]
    omega
  have hreq1 : 1 ≤ m.sectors := by omega
  have hreq255 : m.sectors ≤ 255 := by
    have : (pl + 5) / 4096 ≤ 254 := by omega
    omega
  have hlen5 : (pl + 1 + 4) % 2 ^ 32 = pl + 5 := by
    rw [Nat.mod_eq_of_lt (by omega)]
  have hnomax : ¬ CHUNK_MAXIMUM_BYTES_LENGTH < pl + 5 := by
    unfold CHUNK_MAXIMUM_BYTES_LENGTH
    omega
  simp only [save_chunk, write_chunk, load_chunk, update_metadata, metadata_index,
    REGION_SECTOR_BYTES_LENGTH, CHUNK_MAXIMUM_BYTES_LENGTH]
  rw [hlen5]
  rw [if_neg (by omega : ¬ 4096 * 256 < pl + 5)]
  rw [hpair]
  dsimp only
  rw [if_pos ⟨trivial, trivial⟩]
  dsimp only
  exact write_then_read codec t r1.file (localCoord chunk_x) (localCoord chunk_z) pl pf
    m.sector_index m.sectors (4096 - (pl + 5) % 65536 % 4096) (now % 2 ^ 32 % 2 ^ 32)
    hlx hlz hsi2 hsi24 hreq1 hreq255 hfits hdec

/-- Witness for C1: saving the 3-byte payload `[7, 8, 9]` at chunk `(0, 0)`
into an empty region folder (placement: fresh region, tail sector 2), then
loading it with a codec that decodes the raw payload bytes, returns exactly
`[7, 8, 9]`. -/
theorem C1_round_trip_amended_witness :
    load_chunk codecL
      (save_chunk (fun _ _ => none) 0 0 3 (fun i => [7, 8, 9].getD i 0) 1234).1 0 0 =
      Except.ok [7, 8, 9] := by
  refine C1_round_trip_amended codecL [7, 8, 9] (fun _ _ => none) 0 0 3
    (fun i => [7, 8, 9].getD i 0) 1234 ?_ (by norm_num) ⟨2, 1, 0⟩ ?_
    (by norm_num) (by norm_num)
  · intro g hg
    have h0 := hg 0 (by norm_num)
    have h1 := hg 1 (by norm_num)
    have h2 := hg 2 (by norm_num)
    show Except.ok [g 0, g 1, g 2] = Except.ok [7, 8, 9]
    rw [h0, h1, h2]
    rfl
  · rfl

/-- Witness for C3: on a fresh region (2 header sectors, no free gap) a
10-byte payload needs 1 sector and no free run exists, so the file grows by
exactly one sector, one occupied bit is appended, and the chunk lands at
sector 2 (the tail, trailing free run 0). -/
theorem C3_growth_exact_witness :
    (write_chunk (AnvilRegion.new freshFile) 0 0 10 (fun _ => 1) 55).2 = Except.ok () ∧
    (write_chunk (AnvilRegion.new freshFile) 0 0 10 (fun _ => 1) 55).1.file.len =
      (AnvilRegion.new freshFile).file.len +
        (sectorsRequired (10 + 5) -
          trailingFree (releaseSectors (AnvilRegion.new freshFile).used_sectors
            (get_metadata (AnvilRegion.new freshFile) 0 0).sector_index
            (get_metadata (AnvilRegion.new freshFile) 0 0).sectors)
            ((AnvilRegion.new freshFile).file.len / 4096)) * 4096 ∧
    (write_chunk (AnvilRegion.new freshFile) 0 0 10 (fun _ => 1) 55).1.used_sectors =
      BitV.pushN (releaseSectors (AnvilRegion.new freshFile).used_sectors
        (get_metadata (AnvilRegion.new freshFile) 0 0).sector_index
        (get_metadata (AnvilRegion.new freshFile) 0 0).sectors)
        (sectorsRequired (10 + 5) -
          trailingFree (releaseSectors (AnvilRegion.new freshFile).used_sectors
            (get_metadata (AnvilRegion.new freshFile) 0 0).sector_index
            (get_metadata (AnvilRegion.new freshFile) 0 0).sectors)
            ((AnvilRegion.new freshFile).file.len / 4096)) true ∧
    (write_chunk (AnvilRegion.new freshFile) 0 0 10 (fun _ => 1) 55).1.chunks_metadata
        (metadata_index 0 0) =
      ⟨(AnvilRegion.new freshFile).file.len / 4096 -
        trailingFree (releaseSectors (AnvilRegion.new freshFile).used_sectors
          (get_metadata (AnvilRegion.new freshFile) 0 0).sector_index
          (get_metadata (AnvilRegion.new freshFile) 0 0).sectors)
          ((AnvilRegion.new freshFile).file.len / 4096),
        sectorsRequired (10 + 5), 55 % 2 ^ 32⟩ :=
  C3_growth_exact (AnvilRegion.new freshFile) 0 0 10 (fun _ => 1) 55
    (by norm_num) (by norm_num) (by decide) (by decide) (by decide) (by norm_num)
    (by decide) (by decide)
